import Mathlib

/-!
Verification of the Directory Mutation & Adaptive Sharding Engine of
`@helia/unixfs` (ipfs/helia-unixfs), shallowly embedded in Lean 4.

The embedding follows `src/commands/cp.ts`, `src/commands/rm.ts`,
`src/utils/cid-to-directory.ts` and `src/index.ts` directly.  The utility
modules those files import (`add-link.ts`, `remove-link.ts`,
`cid-to-pblink.ts`, `constants.ts`, the HAMT sharding helpers) are not part
of the available sources, so they are modelled from the specification, as
marked in each doc comment.

Modelling conventions:
* machine integers are `Nat`;
* async functions returning a value or throwing become functions returning
  `Except UfsErr _`, paired with the resulting blockstore where the
  operation may write blocks;
* the blockstore is an association list from CIDs to decoded node contents;
  the dag-pb `Data` field's UnixFS type tag is represented by the
  constructor of `MContent`;
* a CID is a pair of version and multihash; the multihash of a freshly
  written node is computed by a fixed structural hash of its content
  (no claim below relies on hash injectivity);
* error classes carry no message (no claim depends on message text).
-/

/-- A CID: encoding version plus multihash, mirroring the `version` and
`multihash` fields of `multiformats` CIDs used by the source. -/
structure MCid where
  version : Nat
  multihash : Nat
deriving DecidableEq, Repr

/-- A dag-pb link as used by the source (`@ipld/dag-pb` `PBLink`):
a name, a cumulative size and a target CID. -/
structure PBLink where
  Name : String
  Tsize : Nat
  Hash : MCid
deriving DecidableEq, Repr

mutual
/-- Modelled from the spec: a `ShardEntry` of a HAMT shard node — either a
direct link or a sub-shard keyed by a bucket index. -/
inductive SEntry where
  | link : PBLink → SEntry
  | shard : SNode → SEntry
deriving DecidableEq, Repr

/-- Modelled from the spec: a HAMT `ShardNode` — the ordered sequence of
occupied buckets (bitfield plus entry list), represented as an association
list from bucket index to entry, kept sorted by bucket index. -/
inductive SNode where
  | nil : SNode
  | cons : Nat → SEntry → SNode → SNode
deriving DecidableEq, Repr
end

/-- The decoded content of a block, with the UnixFS type tag of the dag-pb
`Data` field represented by the constructor: a flat directory node, a
HAMT-sharded directory node, a file, or a raw leaf. -/
inductive MContent where
  | dirNode : List PBLink → MContent
  | shardNode : SNode → MContent
  | fileNode : Nat → MContent
  | rawNode : Nat → MContent
deriving DecidableEq, Repr

/-- The entry types reported by the `ipfs-unixfs-exporter` collaborator. -/
inductive EntryType where
  | file
  | directory
  | raw
deriving DecidableEq, Repr

/-- An exporter entry: its reported type and the decoded node. -/
structure Entry where
  type : EntryType
  node : MContent
deriving DecidableEq, Repr

/-- The `Directory` interface of `cid-to-directory.ts`: a CID together with
the node it addresses. -/
structure Directory where
  cid : MCid
  node : MContent
deriving DecidableEq, Repr

/-- The error classes thrown by the source (`@helia/interface/errors` and
`./errors`).  `InvalidParametersError` is what the source throws for a name
containing a path separator (the spec calls this error kind
`InvalidNameError`). -/
inductive UfsErr where
  | InvalidParametersError
  | NotADirectoryError
  | AlreadyExistsError
  | NotFoundError
deriving DecidableEq, Repr

/-- The blockstore collaborator, modelled as an association list from CID to
decoded block content; `put` conses a new pair. -/
def Blockstore := List (MCid × MContent)
deriving DecidableEq

/-- The result type of `addLink` / `removeLink`: the new CID and node. -/
structure DirResult where
  cid : MCid
  node : MContent
deriving DecidableEq, Repr

/-- Modelled from the spec: the fixed, published, non-cryptographic hash
mapping a link name to a number, consumed in 8-bit segments for bucket
placement (the source uses murmur3 via `hamt-sharding`; only fixedness and
determinism matter to the claims). -/
def hashName (s : String) : Nat :=
  s.data.foldl (fun h c => h * 31 + c.toNat + 1) 7

/-- The check `name.includes('/')` of `cp.ts` / `rm.ts`, rendered over the
character list of the name (proved equal to `String.contains` below). -/
def nameHasSlash (name : String) : Bool :=
  name.data.contains '/'

/-- Modelled from the spec: the bucket index of a name at shard depth `d` is
the `d`-th 8-bit segment of the name's hash (fan-out 256). -/
def bucketOf (name : String) (d : Nat) : Nat :=
  hashName name / 256 ^ d % 256

/-- Modelled from the spec: maximum shard depth (a 64-bit hash consumed in
8-bit segments supports 8 levels), used as recursion fuel. -/
def shardFuel : Nat := 8

/-- Look up the entry stored at bucket index `i` of a shard node. -/
def lookupB (i : Nat) : SNode → Option SEntry
  | .nil => none
  | .cons j e rest => if j = i then some e else lookupB i rest

/-- Store entry `e` at bucket index `i` of a shard node, keeping the bucket
list sorted by index (this canonical ordering models the bitfield-ordered
serialization of shard nodes). -/
def setBucket (i : Nat) (e : SEntry) : SNode → SNode
  | .nil => .cons i e .nil
  | .cons j f rest =>
    if i < j then .cons i e (.cons j f rest)
    else if i = j then .cons i e rest
    else .cons j f (setBucket i e rest)

/-- Remove the entry stored at bucket index `i` of a shard node. -/
def delBucket (i : Nat) : SNode → SNode
  | .nil => .nil
  | .cons j f rest => if j = i then rest else .cons j f (delBucket i rest)

/-- Modelled from the spec: insertion into a shard node at depth `d`
(spec 4.2): compute the bucket index at the current depth; an empty bucket
stores the link directly; a bucket holding a link with the same name is
overwritten; a bucket holding a link with a different name becomes a
sub-shard at depth `d+1` holding the existing and the new link; a bucket
holding a sub-shard recurses into it.  `fuel` bounds the recursion depth
(the hash is finite); at exhausted fuel the node is returned unchanged. -/
def insertWith (fuel : Nat) (d : Nat) (l : PBLink) (n : SNode) : SNode :=
  match fuel with
  | 0 => n
  | fuel + 1 =>
    let i := bucketOf l.Name d
    match lookupB i n with
    | none => setBucket i (.link l) n
    | some (.link ex) =>
      if ex.Name = l.Name then setBucket i (.link l) n
      else
        setBucket i
          (.shard (insertWith fuel (d + 1) l (insertWith fuel (d + 1) ex .nil))) n
    | some (.shard sub) => setBucket i (.shard (insertWith fuel (d + 1) l sub)) n

/-- Modelled from the spec: locate the link with the given name in a shard
tree by following its hash segments. -/
def shardGet (fuel : Nat) (d : Nat) (name : String) (n : SNode) : Option PBLink :=
  match fuel with
  | 0 => none
  | fuel + 1 =>
    match lookupB (bucketOf name d) n with
    | none => none
    | some (.link l) => if l.Name = name then some l else none
    | some (.shard sub) => shardGet fuel (d + 1) name sub

/-- The entry that one insertion step stores into the current bucket, as a
function of what the bucket held. -/
def entryFor (fuel d : Nat) (l : PBLink) : Option SEntry → SEntry
  | none => .link l
  | some (.link ex) =>
    if ex.Name = l.Name then .link l
    else .shard (insertWith fuel (d + 1) l (insertWith fuel (d + 1) ex .nil))
  | some (.shard sub) => .shard (insertWith fuel (d + 1) l sub)

/-- A shard node that has become reducible to a single direct link
(exactly one bucket occupied by a link, no sub-shards). -/
def soleLink : SNode → Option PBLink
  | .cons _ (.link l) .nil => some l
  | _ => none

/-- Modelled from the spec: removal from a shard node at depth `d`
(spec 4.2): locate and remove the entry; a sub-shard left reducible to one
direct link is collapsed back into a direct link at the parent level. -/
def removeFrom (fuel : Nat) (d : Nat) (name : String) (n : SNode) : SNode :=
  match fuel with
  | 0 => n
  | fuel + 1 =>
    let i := bucketOf name d
    match lookupB i n with
    | none => n
    | some (.link ex) => if ex.Name = name then delBucket i n else n
    | some (.shard sub) =>
      let sub2 := removeFrom fuel (d + 1) name sub
      match soleLink sub2 with
      | some l => setBucket i (.link l) n
      | none => setBucket i (.shard sub2) n

/-- Modelled from the spec: flat→sharded conversion re-inserts every
existing link into a fresh empty shard root using the hash-bucket
algorithm. -/
def convertToShard (links : List PBLink) : SNode :=
  links.foldl (fun n l => insertWith shardFuel 0 l n) SNode.nil

mutual
/-- All link names stored in a shard entry. -/
def entryNames : SEntry → List String
  | .link l => [l.Name]
  | .shard n => nodeNames n

/-- All link names stored in a shard node. -/
def nodeNames : SNode → List String
  | .nil => []
  | .cons _ e rest => entryNames e ++ nodeNames rest
end

/-- Modelled from the spec: the serialized byte size of one dag-pb link
(name bytes plus fixed CID and varint overhead; the exact constants are an
abstraction of the dag-pb encoding, only monotone size accounting matters
to the claims). -/
def serializedLinkSize (l : PBLink) : Nat :=
  l.Name.length + 42

/-- Modelled from the spec: the serialized byte size of a flat directory
node holding the given links. -/
def serializedDirSize (links : List PBLink) : Nat :=
  4 + (links.map serializedLinkSize).sum

mutual
/-- A fixed structural hash of a shard entry, for multihash computation. -/
def hashSEntry : SEntry → Nat
  | .link l => hashName l.Name + 31 * (l.Tsize + 31 * (l.Hash.version + 31 * l.Hash.multihash))
  | .shard n => 17 + 31 * hashSNode n

/-- A fixed structural hash of a shard node, for multihash computation. -/
def hashSNode : SNode → Nat
  | .nil => 3
  | .cons i e rest => 5 + i + 31 * (hashSEntry e + 31 * hashSNode rest)
end

/-- A fixed structural hash of block content, standing for the multihash of
its serialized bytes.  No claim below relies on its injectivity. -/
def hashContent : MContent → Nat
  | .dirNode links =>
    2 + 31 * links.foldl (fun a l => 31 * a + hashSEntry (.link l)) 1
  | .shardNode n => 3 + 31 * hashSNode n
  | .fileNode k => 5 + 31 * k
  | .rawNode k => 7 + 31 * k

/-- Modelled from the spec: the cumulative size reported for a node when it
is packaged as a link (spec 4.4). -/
def cumulativeSizeOf : MContent → Nat
  | .dirNode links => serializedDirSize links
  | .shardNode n => 4 + hashSNode n % 1000
  | .fileNode k => k + 1
  | .rawNode k => k + 1

/-- Write a node to the blockstore: its CID is the requested version paired
with the multihash of its content; returns the `addLink`-style result and
the extended store. -/
def putContent (c : MContent) (version : Nat) (bs : Blockstore) :
    Except UfsErr DirResult × Blockstore :=
  let cid : MCid := { version := version, multihash := hashContent c }
  (.ok { cid := cid, node := c }, (cid, c) :: bs)

/-- The entry type the exporter reports for decoded content: both flat and
HAMT-sharded directory nodes resolve with type `directory`. -/
def contentType : MContent → EntryType
  | .dirNode _ => .directory
  | .shardNode _ => .directory
  | .fileNode _ => .file
  | .rawNode _ => .raw

/-- The `ipfs-unixfs-exporter` collaborator: resolve a CID against the
blockstore; fails with `NotFoundError` when the CID is unresolvable. -/
def exporter (cid : MCid) (bs : Blockstore) : Except UfsErr Entry :=
  match List.find? (fun p => p.1 = cid) bs with
  | none => .error .NotFoundError
  | some p => .ok { type := contentType p.2, node := p.2 }

/-- The function `cidToDirectory` from `cid-to-directory.ts`: resolve the CID via the
exporter and fail with `NotADirectoryError` unless the entry has type
`directory`. -/
def cidToDirectory (cid : MCid) (bs : Blockstore) : Except UfsErr Directory :=
  match exporter cid bs with
  | .error e => .error e
  | .ok entry =>
    if entry.type = .directory then .ok { cid := cid, node := entry.node }
    else .error .NotADirectoryError

/-- Modelled from the spec: `cidToPBLink` (`cid-to-pblink.ts` is not among
the sources; spec 4.4 Link Projection): resolve the CID via the exporter to
determine its cumulative size and package it as a named link; fails with
`NotFoundError` when the CID is unresolvable. -/
def cidToPBLink (cid : MCid) (name : String) (bs : Blockstore) :
    Except UfsErr PBLink :=
  match exporter cid bs with
  | .error e => .error e
  | .ok entry => .ok { Name := name, Tsize := cumulativeSizeOf entry.node, Hash := cid }

/-- Whether a directory node already holds a link with the given name
(flat: scan the link list; sharded: follow the hash path). -/
def dirHasName (c : MContent) (name : String) : Bool :=
  match c with
  | .dirNode links => links.any (fun l => l.Name == name)
  | .shardNode n => (shardGet shardFuel 0 name n).isSome
  | _ => false

/-- Whether content is a HAMT-sharded directory node. -/
def isShard : MContent → Bool
  | .shardNode _ => true
  | _ => false

/-- The options `cp.ts` / `rm.ts` pass to `addLink`. -/
structure AddLinkOpts where
  allowOverwriting : Bool
  cidVersion : Nat
  shardSplitThresholdBytes : Nat
deriving DecidableEq, Repr

/-- Modelled from the spec: `addLink` (`add-link.ts` is not among the
sources; spec 4.1): if a link with the same name exists and overwriting is
not allowed, fails with `AlreadyExistsError`; otherwise the link is
inserted (replacing any same-named link); a flat directory whose candidate
serialized size exceeds `shardSplitThresholdBytes` is converted to sharded
form before being written. -/
def addLink (parent : Directory) (child : PBLink) (bs : Blockstore)
    (opts : AddLinkOpts) : Except UfsErr DirResult × Blockstore :=
  match parent.node with
  | .dirNode links =>
    if (links.any (fun l => l.Name == child.Name)) && !opts.allowOverwriting then
      (.error .AlreadyExistsError, bs)
    else
      let links2 := links.filter (fun l => l.Name != child.Name) ++ [child]
      if serializedDirSize links2 > opts.shardSplitThresholdBytes then
        putContent (.shardNode (convertToShard links2)) opts.cidVersion bs
      else
        putContent (.dirNode links2) opts.cidVersion bs
  | .shardNode n =>
    if (shardGet shardFuel 0 child.Name n).isSome && !opts.allowOverwriting then
      (.error .AlreadyExistsError, bs)
    else
      putContent (.shardNode (insertWith shardFuel 0 child n)) opts.cidVersion bs
  | _ => (.error .NotADirectoryError, bs)

/-- The options `rm.ts` passes to `removeLink`. -/
structure RemoveLinkOpts where
  cidVersion : Nat
  shardSplitThresholdBytes : Nat
deriving DecidableEq, Repr

/-- Modelled from the spec: `removeLink` (`remove-link.ts` is not among the
sources; spec 4.1/4.2): fails with `NotFoundError` when the name is absent;
a flat directory drops the link; a sharded directory removes it from the
shard tree (collapsing reducible sub-shards) and stays sharded — removal
never triggers re-conversion to flat form. -/
def removeLink (parent : Directory) (name : String) (bs : Blockstore)
    (opts : RemoveLinkOpts) : Except UfsErr DirResult × Blockstore :=
  match parent.node with
  | .dirNode links =>
    if links.any (fun l => l.Name == name) then
      putContent (.dirNode (links.filter (fun l => l.Name != name))) opts.cidVersion bs
    else
      (.error .NotFoundError, bs)
  | .shardNode n =>
    match shardGet shardFuel 0 name n with
    | none => (.error .NotFoundError, bs)
    | some _ =>
      putContent (.shardNode (removeFrom shardFuel 0 name n)) opts.cidVersion bs
  | _ => (.error .NotADirectoryError, bs)

/-- The constant `SHARD_SPLIT_THRESHOLD_BYTES` (`constants.ts` is not among the sources;
modelled from the spec's 256 KiB example). -/
def SHARD_SPLIT_THRESHOLD_BYTES : Nat := 262144

/-- The caller-facing `Partial<CpOptions>` of `cp.ts`: both fields optional
(`none` models an absent property, which `mergeOptions` with
`ignoreUndefined` replaces by the default).  Note the interface carries no
`cidVersion` and no `allowOverwriting` field. -/
structure CpOptionsIn where
  force : Option Bool := none
  shardSplitThresholdBytes : Option Nat := none
deriving DecidableEq, Repr

/-- The merged `CpOptions` of `cp.ts` (`mergeOptions(defaultOptions,
options)` with `defaultOptions = (force := false, shardSplitThresholdBytes
:= SHARD_SPLIT_THRESHOLD_BYTES)`). -/
structure CpOptions where
  force : Bool
  shardSplitThresholdBytes : Nat
deriving DecidableEq, Repr

/-- The merge `mergeOptions(defaultOptions, options)` of `cp.ts`. -/
def mergeCpOptions (options : CpOptionsIn) : CpOptions :=
  { force := options.force.getD false,
    shardSplitThresholdBytes :=
      options.shardSplitThresholdBytes.getD SHARD_SPLIT_THRESHOLD_BYTES }

/-- The caller-facing `Partial<RmOptions>` of `rm.ts`; the interface
carries no `cidVersion` field. -/
structure RmOptionsIn where
  shardSplitThresholdBytes : Option Nat := none
deriving DecidableEq, Repr

/-- The merge `mergeOptions(defaultOptions, options)` of `rm.ts`. -/
def mergeRmOptions (options : RmOptionsIn) : Nat :=
  options.shardSplitThresholdBytes.getD SHARD_SPLIT_THRESHOLD_BYTES

/-- The function `cp` from `cp.ts`: merge options; reject a name containing a path
separator; resolve the target as a directory and the source as a link
(the source's `Promise.all` pair is sequentialized in listed order, so a
failing target resolution determines the error); then `addLink` with
`allowOverwriting` equal to the merged `force` option and `cidVersion`
equal to `target.version`.  The trailing `...opts` spread in the source
cannot override either: `CpOptions` carries no `allowOverwriting` or
`cidVersion` property.  Returns the result alongside the final
blockstore. -/
def cp (source target : MCid) (name : String) (bs : Blockstore)
    (options : CpOptionsIn) : Except UfsErr MCid × Blockstore :=
  let opts := mergeCpOptions options
  if nameHasSlash name then
    (.error .InvalidParametersError, bs)
  else
    match cidToDirectory target bs with
    | .error e => (.error e, bs)
    | .ok directory =>
      match cidToPBLink source name bs with
      | .error e => (.error e, bs)
      | .ok pblink =>
        let r := addLink directory pblink bs
          { allowOverwriting := opts.force,
            cidVersion := target.version,
            shardSplitThresholdBytes := opts.shardSplitThresholdBytes }
        match r.1 with
        | .error e => (.error e, r.2)
        | .ok res => (.ok res.cid, r.2)

/-- The function `rm` from `rm.ts`: merge options; reject a name containing a path
separator; resolve the target as a directory; then `removeLink` with
`cidVersion` equal to `target.version` (the source writes `cidVersion`
after the `...opts` spread, so it always wins).  Returns the result
alongside the final blockstore. -/
def rm (target : MCid) (name : String) (bs : Blockstore)
    (options : RmOptionsIn) : Except UfsErr MCid × Blockstore :=
  let threshold := mergeRmOptions options
  if nameHasSlash name then
    (.error .InvalidParametersError, bs)
  else
    match cidToDirectory target bs with
    | .error e => (.error e, bs)
    | .ok directory =>
      let r := removeLink directory name bs
        { cidVersion := target.version, shardSplitThresholdBytes := threshold }
      match r.1 with
      | .error e => (.error e, r.2)
      | .ok res => (.ok res.cid, r.2)

mutual
/-- Modelled from the spec: a DAG node for the Path Resolver & Ancestor
Rewriter (spec 4.3).  Content addressing is modelled as perfect: a node
stands for its own CID (two nodes have the same CID exactly when they are
equal), which is the spec's collision-free reading of "CID derived from its
serialized bytes". -/
inductive TNode where
  | file : Nat → TNode
  | dir : TLinks → TNode
deriving DecidableEq, Repr

/-- The ordered link table of a directory node in the path-rewriter model:
name/child pairs in insertion order. -/
inductive TLinks where
  | nil : TLinks
  | cons : String → TNode → TLinks → TLinks
deriving DecidableEq, Repr
end

/-- Look up a name in a link table. -/
def getChild (s : String) : TLinks → Option TNode
  | .nil => none
  | .cons t c rest => if t = s then some c else getChild s rest

/-- Replace the child a name points at, or append the pair when absent —
the `addLink` with `allowOverwriting := true` of spec 4.3 step 4, at the
level of the link table. -/
def setChild (s : String) (c : TNode) : TLinks → TLinks
  | .nil => .cons s c .nil
  | .cons t d rest =>
    if t = s then .cons t c rest else .cons t d (setChild s c rest)

/-- Modelled from the spec: the Path Resolver & Ancestor Rewriter
(spec 4.3): descend the path segment by segment (`none` models
`PathSegmentNotFoundError` for an absent segment and
`PathSegmentNotADirectoryError` for a non-directory on the path), apply the
mutation `f` to the innermost node, and rewrite every ancestor's link table
with the new child CID on the way back up, producing the new root. -/
def updatePath (f : TNode → Option TNode) : List String → TNode → Option TNode
  | [], n => f n
  | s :: rest, .dir ls =>
    match getChild s ls with
    | none => none
    | some c =>
      match updatePath f rest c with
      | none => none
      | some c2 => some (.dir (setChild s c2 ls))
  | _ :: _, .file _ => none

/-- Induction on the bucket-list spine of a shard node (the mutual
`SNode`/`SEntry` recursor specialised to the spine). -/
theorem SNode.spineInduction {motive : SNode → Prop} (hnil : motive .nil)
    (hcons : ∀ j f rest, motive rest → motive (.cons j f rest)) :
    ∀ n, motive n
  | .nil => hnil
  | .cons j f rest => hcons j f rest (SNode.spineInduction hnil hcons rest)

theorem lookupB_setBucket_self (i : Nat) (e : SEntry) (n : SNode) :
    lookupB i (setBucket i e n) = some e := by
  induction n using SNode.spineInduction with
  | hnil => simp [setBucket, lookupB]
  | hcons j f rest ih =>
    simp only [setBucket]
    split_ifs with h1 h2
    · simp [lookupB]
    · simp [lookupB]
    · simp only [lookupB]
      rw [if_neg (by omega : ¬ j = i)]
      exact ih

theorem lookupB_setBucket_ne {i j : Nat} (h : i ≠ j) (e : SEntry) (n : SNode) :
    lookupB i (setBucket j e n) = lookupB i n := by
  induction n using SNode.spineInduction with
  | hnil =>
    simp only [setBucket, lookupB]
    rw [if_neg (by omega : ¬ j = i)]
  | hcons k f rest ih =>
    simp only [setBucket]
    split_ifs with h1 h2
    · simp only [lookupB]
      rw [if_neg (by omega : ¬ j = i)]
    · simp only [lookupB]
      rw [if_neg (by omega : ¬ j = i), if_neg (by omega : ¬ k = i)]
    · simp only [lookupB]
      by_cases h3 : k = i
      · rw [if_pos h3, if_pos h3]
      · rw [if_neg h3, if_neg h3]
        exact ih

theorem setBucket_idem (i : Nat) (e f : SEntry) (n : SNode) :
    setBucket i e (setBucket i f n) = setBucket i e n := by
  induction n using SNode.spineInduction with
  | hnil => simp [setBucket]
  | hcons j g rest ih =>
    simp only [setBucket]
    split_ifs with h1 h2
    · simp [setBucket]
    · simp [setBucket]
    · simp only [setBucket]
      rw [if_neg h1, if_neg h2, ih]

theorem setBucket_comm {i j : Nat} (h : i ≠ j) (e f : SEntry) (n : SNode) :
    setBucket i e (setBucket j f n) = setBucket j f (setBucket i e n) := by
  induction n using SNode.spineInduction with
  | hnil =>
    simp only [setBucket]
    split_ifs <;> (try simp only [setBucket]) <;> first | rfl | omega
  | hcons k g rest ih =>
    simp only [setBucket]
    split_ifs <;> (try simp only [setBucket]) <;> (try split_ifs) <;>
      first | rfl | omega | rw [ih]

theorem mem_nodeNames_of_lookup {i : Nat} {n : SNode} {e : SEntry} {s : String}
    (hl : lookupB i n = some e) (hs : s ∈ entryNames e) : s ∈ nodeNames n := by
  induction n using SNode.spineInduction with
  | hnil => simp [lookupB] at hl
  | hcons j f rest ih =>
    simp only [lookupB] at hl
    by_cases hj : j = i
    · rw [if_pos hj] at hl
      injection hl with hfe
      subst hfe
      simp only [nodeNames]
      exact List.mem_append_left _ hs
    · rw [if_neg hj] at hl
      simp only [nodeNames]
      exact List.mem_append_right _ (ih hl)

theorem mem_nodeNames_setBucket {i : Nat} {e : SEntry} {n : SNode} {s : String}
    (hs : s ∈ nodeNames (setBucket i e n)) :
    s ∈ entryNames e ∨ s ∈ nodeNames n := by
  induction n using SNode.spineInduction with
  | hnil =>
    simp only [setBucket, nodeNames] at hs
    rcases List.mem_append.mp hs with h | h
    · exact Or.inl h
    · cases h
  | hcons j f rest ih =>
    simp only [setBucket] at hs
    split_ifs at hs with h1 h2
    · simp only [nodeNames] at hs ⊢
      rcases List.mem_append.mp hs with h | h
      · exact Or.inl h
      · exact Or.inr h
    · simp only [nodeNames] at hs ⊢
      rcases List.mem_append.mp hs with h | h
      · exact Or.inl h
      · exact Or.inr (List.mem_append_right _ h)
    · simp only [nodeNames] at hs ⊢
      rcases List.mem_append.mp hs with h | h
      · exact Or.inr (List.mem_append_left _ h)
      · rcases ih h with h3 | h3
        · exact Or.inl h3
        · exact Or.inr (List.mem_append_right _ h3)

theorem mem_nodeNames_insertWith {fuel d : Nat} {l : PBLink} {n : SNode} {s : String}
    (hs : s ∈ nodeNames (insertWith fuel d l n)) :
    s = l.Name ∨ s ∈ nodeNames n := by
  induction fuel generalizing d l n with
  | zero => exact Or.inr hs
  | succ fuel ih =>
    rw [insertWith] at hs
    cases hlk : lookupB (bucketOf l.Name d) n with
    | none =>
      rw [hlk] at hs
      rcases mem_nodeNames_setBucket hs with h | h
      · left
        simpa [entryNames] using h
      · exact Or.inr h
    | some e =>
      rw [hlk] at hs
      cases e with
      | link ex =>
        dsimp only at hs
        by_cases hne : ex.Name = l.Name
        · rw [if_pos hne] at hs
          rcases mem_nodeNames_setBucket hs with h | h
          · left
            simpa [entryNames] using h
          · exact Or.inr h
        · rw [if_neg hne] at hs
          rcases mem_nodeNames_setBucket hs with h | h
          · simp only [entryNames] at h
            rcases ih h with h2 | h2
            · exact Or.inl h2
            · rcases ih h2 with h3 | h3
              · right
                exact mem_nodeNames_of_lookup hlk (by simp [entryNames, h3])
              · cases h3
          · exact Or.inr h
      | shard sub =>
        dsimp only at hs
        rcases mem_nodeNames_setBucket hs with h | h
        · simp only [entryNames] at h
          rcases ih h with h2 | h2
          · exact Or.inl h2
          · right
            exact mem_nodeNames_of_lookup hlk (by simpa [entryNames] using h2)
        · exact Or.inr h

theorem insertWith_idem (fuel d : Nat) (l : PBLink) (n : SNode) :
    insertWith fuel d l (insertWith fuel d l n) = insertWith fuel d l n := by
  induction fuel generalizing d l n with
  | zero => rfl
  | succ fuel ih =>
    cases hlk : lookupB (bucketOf l.Name d) n with
    | none => simp [insertWith, hlk, lookupB_setBucket_self, setBucket_idem]
    | some e =>
      cases e with
      | link ex =>
        by_cases hne : ex.Name = l.Name
        · simp [insertWith, hlk, hne, lookupB_setBucket_self, setBucket_idem]
        · simp [insertWith, hlk, hne, lookupB_setBucket_self, setBucket_idem, ih]
      | shard sub =>
        simp [insertWith, hlk, lookupB_setBucket_self, setBucket_idem, ih]

theorem insertWith_succ (fuel d : Nat) (l : PBLink) (n : SNode) :
    insertWith (fuel + 1) d l n =
      setBucket (bucketOf l.Name d)
        (entryFor fuel d l (lookupB (bucketOf l.Name d) n)) n := by
  rw [insertWith]
  cases lookupB (bucketOf l.Name d) n with
  | none => simp only [entryFor]
  | some e =>
    cases e with
    | link ex =>
      simp only [entryFor]
      split_ifs <;> rfl
    | shard sub => simp only [entryFor]

theorem insertWith_comm (fuel d : Nat) (x y : PBLink) (n : SNode)
    (hxy : x.Name ≠ y.Name)
    (hx : x.Name ∉ nodeNames n) (hy : y.Name ∉ nodeNames n) :
    insertWith fuel d x (insertWith fuel d y n) =
      insertWith fuel d y (insertWith fuel d x n) := by
  induction fuel generalizing d n with
  | zero => rfl
  | succ fuel ih =>
    rw [insertWith_succ fuel d y n, insertWith_succ fuel d x n,
        insertWith_succ fuel d x, insertWith_succ fuel d y]
    by_cases hbb : bucketOf x.Name d = bucketOf y.Name d
    · rw [hbb, lookupB_setBucket_self, lookupB_setBucket_self,
        setBucket_idem, setBucket_idem]
      cases hlk : lookupB (bucketOf y.Name d) n with
      | none =>
        simp only [entryFor]
        rw [if_neg (fun h => hxy h.symm), if_neg hxy]
        rw [ih (d + 1) SNode.nil (by intro h; cases h) (by intro h; cases h)]
      | some e =>
        cases e with
        | link ex =>
          have hexmem : ex.Name ∈ nodeNames n :=
            mem_nodeNames_of_lookup hlk (by simp [entryNames])
          have hexx : ¬ ex.Name = x.Name := fun h => hx (h ▸ hexmem)
          have hexy : ¬ ex.Name = y.Name := fun h => hy (h ▸ hexmem)
          have hxm : x.Name ∉ nodeNames (insertWith fuel (d + 1) ex SNode.nil) := by
            intro hmem
            rcases mem_nodeNames_insertWith hmem with h1 | h1
            · exact hexx h1.symm
            · cases h1
          have hym : y.Name ∉ nodeNames (insertWith fuel (d + 1) ex SNode.nil) := by
            intro hmem
            rcases mem_nodeNames_insertWith hmem with h1 | h1
            · exact hexy h1.symm
            · cases h1
          simp only [entryFor]
          rw [if_neg hexy, if_neg hexx]
          dsimp only
          rw [ih (d + 1) (insertWith fuel (d + 1) ex SNode.nil) hxm hym]
        | shard sub =>
          have hxs : x.Name ∉ nodeNames sub := fun h =>
            hx (mem_nodeNames_of_lookup hlk (by simpa [entryNames] using h))
          have hys : y.Name ∉ nodeNames sub := fun h =>
            hy (mem_nodeNames_of_lookup hlk (by simpa [entryNames] using h))
          simp only [entryFor]
          rw [ih (d + 1) sub hxs hys]
    · rw [lookupB_setBucket_ne hbb, lookupB_setBucket_ne (Ne.symm hbb),
        setBucket_comm hbb]

theorem foldl_insertWith_perm {l1 l2 : List PBLink} (hp : l1.Perm l2) :
    ∀ (fuel d : Nat) (b : SNode),
      l1.Pairwise (fun a c => a.Name ≠ c.Name) →
      (∀ z ∈ l1, z.Name ∉ nodeNames b) →
      l1.foldl (fun n l => insertWith fuel d l n) b =
        l2.foldl (fun n l => insertWith fuel d l n) b := by
  induction hp with
  | nil =>
    intro fuel d b _ _
    rfl
  | cons z p ih =>
    intro fuel d b hpw hdisj
    simp only [List.foldl_cons]
    apply ih fuel d _ hpw.tail
    intro w hw hmem
    rcases mem_nodeNames_insertWith hmem with h1 | h1
    · exact List.rel_of_pairwise_cons hpw hw h1.symm
    · exact hdisj w (List.mem_cons_of_mem _ hw) h1
  | swap a b l =>
    intro fuel d bb hpw hdisj
    simp only [List.foldl_cons]
    rw [insertWith_comm fuel d a b bb
      (Ne.symm (List.rel_of_pairwise_cons hpw (List.mem_cons_self _ _)))
      (hdisj a (List.mem_cons_of_mem _ (List.mem_cons_self _ _)))
      (hdisj b (List.mem_cons_self _ _))]
  | trans p1 p2 ih1 ih2 =>
    intro fuel d b hpw hdisj
    rw [ih1 fuel d b hpw hdisj]
    exact ih2 fuel d b
      ((p1.pairwise_iff (fun h => Ne.symm h)).mp hpw)
      (fun z hz => hdisj z (p1.mem_iff.mpr hz))

/-- Induction on the spine of a link table (the mutual `TNode`/`TLinks`
recursor specialised to the spine). -/
theorem TLinks.chainInduction {motive : TLinks → Prop} (hnil : motive .nil)
    (hcons : ∀ s c rest, motive rest → motive (.cons s c rest)) :
    ∀ ls, motive ls
  | .nil => hnil
  | .cons s c rest => hcons s c rest (TLinks.chainInduction hnil hcons rest)

theorem getChild_setChild_self (s : String) (c : TNode) (ls : TLinks) :
    getChild s (setChild s c ls) = some c := by
  induction ls using TLinks.chainInduction with
  | hnil => simp [setChild, getChild]
  | hcons t d rest ih =>
    simp only [setChild]
    by_cases h : t = s
    · simp [getChild, h]
    · simp only [if_neg h, getChild, if_neg h]
      exact ih

theorem getChild_setChild_ne {m s : String} (h : m ≠ s) (c : TNode) (ls : TLinks) :
    getChild m (setChild s c ls) = getChild m ls := by
  induction ls using TLinks.chainInduction with
  | hnil =>
    simp only [setChild, getChild]
    rw [if_neg (fun hh => h hh.symm)]
  | hcons t d rest ih =>
    simp only [setChild]
    by_cases ht : t = s
    · subst ht
      simp only [getChild]
      rw [if_neg (fun hh => h hh.symm), if_neg (fun hh => h hh.symm)]
    · simp only [if_neg ht, getChild]
      by_cases hm : t = m
      · rw [if_pos hm, if_pos hm]
      · rw [if_neg hm, if_neg hm]
        exact ih

theorem dir_setChild_ne {s : String} {c c2 : TNode} {ls : TLinks}
    (hget : getChild s ls = some c) (hne : c2 ≠ c) :
    TNode.dir (setChild s c2 ls) ≠ TNode.dir ls := by
  intro heq
  injection heq with hls
  have := getChild_setChild_self s c2 ls
  rw [hls, hget] at this
  exact hne (Option.some.inj this).symm

theorem putContent_version (c : MContent) (v : Nat) (bs : Blockstore)
    (r : DirResult) (h : (putContent c v bs).1 = .ok r) :
    r.cid.version = v := by
  simp only [putContent] at h
  cases h
  rfl

theorem addLink_version (parent : Directory) (child : PBLink) (bs : Blockstore)
    (opts : AddLinkOpts) (r : DirResult)
    (h : (addLink parent child bs opts).1 = .ok r) :
    r.cid.version = opts.cidVersion := by
  cases hn : parent.node with
  | dirNode links =>
    rw [addLink, hn] at h
    dsimp only at h
    split_ifs at h <;>
      first
        | exact absurd h (by simp)
        | exact putContent_version _ _ _ _ h
  | shardNode n =>
    rw [addLink, hn] at h
    dsimp only at h
    split_ifs at h
    exact putContent_version _ _ _ _ h
  | fileNode k =>
    rw [addLink, hn] at h
    exact absurd h (by simp)
  | rawNode k =>
    rw [addLink, hn] at h
    exact absurd h (by simp)

theorem removeLink_version (parent : Directory) (name : String) (bs : Blockstore)
    (opts : RemoveLinkOpts) (r : DirResult)
    (h : (removeLink parent name bs opts).1 = .ok r) :
    r.cid.version = opts.cidVersion := by
  cases hn : parent.node with
  | dirNode links =>
    rw [removeLink, hn] at h
    dsimp only at h
    split_ifs at h
    exact putContent_version _ _ _ _ h
  | shardNode n =>
    rw [removeLink, hn] at h
    dsimp only at h
    cases hg : shardGet shardFuel 0 name n with
    | none =>
      rw [hg] at h
      exact absurd h (by simp)
    | some l =>
      rw [hg] at h
      exact putContent_version _ _ _ _ h
  | fileNode k =>
    rw [removeLink, hn] at h
    exact absurd h (by simp)
  | rawNode k =>
    rw [removeLink, hn] at h
    exact absurd h (by simp)

theorem filter_ne_append_self (links : List PBLink) (child : PBLink) :
    (links.filter (fun l => l.Name != child.Name) ++ [child]).filter
        (fun l => l.Name != child.Name) =
      links.filter (fun l => l.Name != child.Name) := by
  rw [List.filter_append]
  simp [List.filter_filter]

theorem convertToShard_append_single (links : List PBLink) (child : PBLink) :
    convertToShard (links ++ [child]) =
      insertWith shardFuel 0 child (convertToShard links) := by
  simp [convertToShard, List.foldl_append]

theorem nameHasSlash_eq_contains (s : String) :
    nameHasSlash s = s.contains '/' := by
  rcases h : s.contains '/' with _ | _
  · rw [nameHasSlash]
    simp only [Bool.eq_false_iff, Ne] at h ⊢
    rw [String.contains_iff] at h
    intro hc
    exact h (by simpa using hc)
  · rw [nameHasSlash]
    rw [String.contains_iff] at h
    simpa using h

/-- C2: for every fixed finite set of links (pairwise distinct names, as in
any directory), converting a flat directory to sharded form yields
byte-identical serialized shard trees — modelled as equality of the
canonical `SNode` values, hence equal CIDs — in any two runs, regardless of
the order in which the links are inserted. -/
theorem claim2_shard_conversion_deterministic (l1 l2 : List PBLink)
    (hp : l1.Perm l2)
    (hnd : l1.Pairwise (fun a c => a.Name ≠ c.Name)) :
    convertToShard l1 = convertToShard l2 :=
  foldl_insertWith_perm hp shardFuel 0 SNode.nil hnd
    (fun z _ h => by simp [nodeNames] at h)

/-- Witness for C2: two concrete two-link lists in opposite orders convert
to the same shard tree. -/
theorem claim2_witness :
    convertToShard [⟨"a", 1, ⟨1, 1⟩⟩, ⟨"b", 2, ⟨1, 2⟩⟩] =
      convertToShard [⟨"b", 2, ⟨1, 2⟩⟩, ⟨"a", 1, ⟨1, 1⟩⟩] :=
  claim2_shard_conversion_deterministic _ _
    (List.Perm.swap (⟨"b", 2, ⟨1, 2⟩⟩ : PBLink) (⟨"a", 1, ⟨1, 1⟩⟩ : PBLink) [])
    (by decide)

/-- C4: for every link name containing the path separator, `cp` and `rm`
fail with the invalid-name error (the source's `InvalidParametersError`,
which the spec's error taxonomy calls `InvalidNameError`) and perform no
mutation: the blockstore is returned unchanged. -/
theorem claim4_invalid_name (source target : MCid) (name : String)
    (bs : Blockstore) (co : CpOptionsIn) (ro : RmOptionsIn)
    (hname : nameHasSlash name = true) :
    cp source target name bs co = (.error .InvalidParametersError, bs) ∧
    rm target name bs ro = (.error .InvalidParametersError, bs) := by
  constructor
  · rw [cp]
    simp [hname]
  · rw [rm]
    simp [hname]

/-- Witness for C4 at the concrete name "a/b". -/
theorem claim4_witness :
    cp ⟨1, 1⟩ ⟨1, 2⟩ "a/b" [] {} = (.error .InvalidParametersError, []) ∧
    rm ⟨1, 2⟩ "a/b" [] {} = (.error .InvalidParametersError, []) :=
  claim4_invalid_name ⟨1, 1⟩ ⟨1, 2⟩ "a/b" [] {} {} (by decide)

/-- C7: for every CID resolving to a non-directory entry, `cp` (which must
resolve its target as a directory) and `rm` fail with `NotADirectoryError`
and return no new root (the blockstore is returned unchanged). -/
theorem claim7_not_a_directory (source target : MCid) (name : String)
    (bs : Blockstore) (co : CpOptionsIn) (ro : RmOptionsIn) (entry : Entry)
    (hname : nameHasSlash name = false)
    (hexp : exporter target bs = .ok entry)
    (htype : entry.type ≠ .directory) :
    cp source target name bs co = (.error .NotADirectoryError, bs) ∧
    rm target name bs ro = (.error .NotADirectoryError, bs) := by
  have hdir : cidToDirectory target bs = .error .NotADirectoryError := by
    rw [cidToDirectory, hexp]
    dsimp only
    rw [if_neg htype]
  constructor
  · rw [cp]
    simp [hname, hdir]
  · rw [rm]
    simp [hname, hdir]

/-- Witness for C7: a target CID stored as a file node. -/
theorem claim7_witness :
    cp ⟨1, 9⟩ ⟨1, 2⟩ "x" [(⟨1, 2⟩, .fileNode 5)] {} =
      (.error .NotADirectoryError, [(⟨1, 2⟩, .fileNode 5)]) ∧
    rm ⟨1, 2⟩ "x" [(⟨1, 2⟩, .fileNode 5)] {} =
      (.error .NotADirectoryError, [(⟨1, 2⟩, .fileNode 5)]) :=
  claim7_not_a_directory ⟨1, 9⟩ ⟨1, 2⟩ "x" [(⟨1, 2⟩, .fileNode 5)] {} {}
    ⟨.file, .fileNode 5⟩ (by decide) rfl (by decide)

/-- C10: for every name containing the path separator, `cp` and `rm` throw
before performing any blockstore access: the outcome is identical for any
two blockstores (no read can influence it) and the returned blockstore is
the input one, untouched. -/
theorem claim10_invalid_name_no_store_access (source target : MCid)
    (name : String) (bs1 bs2 : Blockstore) (co : CpOptionsIn)
    (ro : RmOptionsIn) (hname : nameHasSlash name = true) :
    ((cp source target name bs1 co).1 = (cp source target name bs2 co).1 ∧
      (cp source target name bs1 co).2 = bs1) ∧
    ((rm target name bs1 ro).1 = (rm target name bs2 ro).1 ∧
      (rm target name bs1 ro).2 = bs1) := by
  rw [cp, cp, rm, rm]
  simp [hname]

/-- Witness for C10 at the concrete name "a/b" over two different stores. -/
theorem claim10_witness :
    ((cp ⟨1, 1⟩ ⟨1, 2⟩ "a/b" [] {}).1 =
        (cp ⟨1, 1⟩ ⟨1, 2⟩ "a/b" [(⟨1, 3⟩, .fileNode 0)] {}).1 ∧
      (cp ⟨1, 1⟩ ⟨1, 2⟩ "a/b" [] {}).2 = []) ∧
    ((rm ⟨1, 2⟩ "a/b" [] {}).1 =
        (rm ⟨1, 2⟩ "a/b" [(⟨1, 3⟩, .fileNode 0)] {}).1 ∧
      (rm ⟨1, 2⟩ "a/b" [] {}).2 = []) :=
  claim10_invalid_name_no_store_access ⟨1, 1⟩ ⟨1, 2⟩ "a/b" []
    [(⟨1, 3⟩, .fileNode 0)] {} {} (by decide)

/-- C9: for every successful `cp` or `rm`, the newly written directory node
is encoded with the CID version of the target CID: `cidVersion` is taken
from `target.version`, and the caller-facing `CpOptions` / `RmOptions`
carry no `cidVersion` field to override it — the conclusion holds for every
possible options value. -/
theorem claim9_cid_version_from_target (source target : MCid) (name : String)
    (bs : Blockstore) (co : CpOptionsIn) (ro : RmOptionsIn) (c1 c2 : MCid) :
    ((cp source target name bs co).1 = .ok c1 → c1.version = target.version) ∧
    ((rm target name bs ro).1 = .ok c2 → c2.version = target.version) := by
  constructor
  · intro h
    rw [cp] at h
    dsimp only at h
    rcases hs : nameHasSlash name with _ | _
    · rw [hs, if_neg Bool.false_ne_true] at h
      cases hd : cidToDirectory target bs with
      | error e =>
        rw [hd] at h
        exact absurd h (by simp)
      | ok directory =>
        rw [hd] at h
        dsimp only at h
        cases hl : cidToPBLink source name bs with
        | error e =>
          rw [hl] at h
          exact absurd h (by simp)
        | ok pblink =>
          rw [hl] at h
          dsimp only at h
          rcases hA : addLink directory pblink bs
              { allowOverwriting := (mergeCpOptions co).force,
                cidVersion := target.version,
                shardSplitThresholdBytes :=
                  (mergeCpOptions co).shardSplitThresholdBytes }
            with ⟨r1, bs3⟩
          rw [hA] at h
          dsimp only at h
          cases r1 with
          | error e => exact absurd h (by simp)
          | ok res =>
            simp only [Except.ok.injEq] at h
            have hv := addLink_version directory pblink bs _ res (by rw [hA])
            rw [← h]
            exact hv
    · rw [hs, if_pos rfl] at h
      exact absurd h (by simp)
  · intro h
    rw [rm] at h
    dsimp only at h
    rcases hs : nameHasSlash name with _ | _
    · rw [hs, if_neg Bool.false_ne_true] at h
      cases hd : cidToDirectory target bs with
      | error e =>
        rw [hd] at h
        exact absurd h (by simp)
      | ok directory =>
        rw [hd] at h
        dsimp only at h
        rcases hR : removeLink directory name bs
            { cidVersion := target.version,
              shardSplitThresholdBytes := mergeRmOptions ro }
          with ⟨r1, bs3⟩
        rw [hR] at h
        dsimp only at h
        cases r1 with
        | error e => exact absurd h (by simp)
        | ok res =>
          simp only [Except.ok.injEq] at h
          have hv := removeLink_version directory name bs _ res (by rw [hR])
          rw [← h]
          exact hv
    · rw [hs, if_pos rfl] at h
      exact absurd h (by simp)

/-- Witness for C9: a concrete `cp` of a file into an empty directory and a
concrete `rm` from a one-link directory, both on version-1 targets, really
produce version-1 CIDs. -/
theorem claim9_witness :
    (⟨1, hashContent (.dirNode [⟨"a", 4, ⟨1, 5⟩⟩])⟩ : MCid).version =
        (⟨1, 2⟩ : MCid).version ∧
    (⟨1, hashContent (.dirNode [])⟩ : MCid).version =
        (⟨1, 2⟩ : MCid).version :=
  ⟨(claim9_cid_version_from_target ⟨1, 5⟩ ⟨1, 2⟩ "a"
      [(⟨1, 2⟩, .dirNode []), (⟨1, 5⟩, .fileNode 3)] {} {}
      ⟨1, hashContent (.dirNode [⟨"a", 4, ⟨1, 5⟩⟩])⟩
      ⟨1, hashContent (.dirNode [])⟩).1 rfl,
    (claim9_cid_version_from_target ⟨1, 5⟩ ⟨1, 2⟩ "a"
      [(⟨1, 2⟩, .dirNode [⟨"a", 4, ⟨1, 5⟩⟩])] {} {}
      ⟨1, hashContent (.dirNode [⟨"a", 4, ⟨1, 5⟩⟩])⟩
      ⟨1, hashContent (.dirNode [])⟩).2 rfl⟩

/-- C5: for every sharded directory and every present link name,
`removeLink` returns a directory that is still in sharded form — removal
never converts back to a flat directory, whatever the configured
`shardSplitThresholdBytes` (the options are universally quantified, so the
conclusion holds however small the shrunken directory becomes). -/
theorem claim5_remove_keeps_sharded (parent : Directory) (name : String)
    (bs : Blockstore) (opts : RemoveLinkOpts) (n : SNode) (l : PBLink)
    (hnode : parent.node = .shardNode n)
    (hpresent : shardGet shardFuel 0 name n = some l) :
    ∃ r, (removeLink parent name bs opts).1 = .ok r ∧ isShard r.node = true := by
  refine ⟨{ cid := ⟨opts.cidVersion,
              hashContent (.shardNode (removeFrom shardFuel 0 name n))⟩,
            node := .shardNode (removeFrom shardFuel 0 name n) }, ?_, rfl⟩
  rw [removeLink, hnode]
  dsimp only
  rw [hpresent]
  rfl

/-- Witness for C5: removing the only link of a concrete one-bucket shard
still yields a sharded node (with a threshold far above the result size). -/
theorem claim5_witness :
    ∃ r, (removeLink ⟨⟨1, 7⟩, .shardNode (.cons 59 (.link ⟨"a", 1, ⟨1, 1⟩⟩) .nil)⟩
        "a" [] ⟨1, 1000⟩).1 = .ok r ∧ isShard r.node = true :=
  claim5_remove_keeps_sharded _ "a" [] ⟨1, 1000⟩
    (.cons 59 (.link ⟨"a", 1, ⟨1, 1⟩⟩) .nil) ⟨"a", 1, ⟨1, 1⟩⟩ rfl (by decide)

/-- C1: for every directory that already contains a link named `name`,
`cp` with `force := false` (the default) fails with `AlreadyExistsError`
and returns no new CID, leaving the blockstore (and hence the directory's
CID) unchanged; `addLink` receives `allowOverwriting` equal to the merged
`force` option, whose default is `false`. -/
theorem claim1_cp_existing_name_fails (source target : MCid) (name : String)
    (bs : Blockstore) (options : CpOptionsIn) (dir : Directory)
    (pblink : PBLink)
    (hname : nameHasSlash name = false)
    (hforce : (mergeCpOptions options).force = false)
    (hdir : cidToDirectory target bs = .ok dir)
    (hlink : cidToPBLink source name bs = .ok pblink)
    (hhas : dirHasName dir.node name = true) :
    cp source target name bs options = (.error .AlreadyExistsError, bs) := by
  have hpn : pblink.Name = name := by
    rw [cidToPBLink] at hlink
    cases hexp : exporter source bs with
    | error e =>
      rw [hexp] at hlink
      exact absurd hlink (by simp)
    | ok entry =>
      rw [hexp] at hlink
      dsimp only at hlink
      injection hlink with h2
      rw [← h2]
  have haddL : addLink dir pblink bs
      { allowOverwriting := (mergeCpOptions options).force,
        cidVersion := target.version,
        shardSplitThresholdBytes :=
          (mergeCpOptions options).shardSplitThresholdBytes } =
      (.error .AlreadyExistsError, bs) := by
    cases hdn : dir.node with
    | dirNode links =>
      rw [hdn] at hhas
      simp only [dirHasName] at hhas
      rw [addLink, hdn]
      dsimp only
      rw [hpn, hforce]
      simp [hhas]
    | shardNode n =>
      rw [hdn] at hhas
      simp only [dirHasName] at hhas
      rw [addLink, hdn]
      dsimp only
      rw [hpn, hforce]
      simp [hhas]
    | fileNode k =>
      rw [hdn] at hhas
      simp [dirHasName] at hhas
    | rawNode k =>
      rw [hdn] at hhas
      simp [dirHasName] at hhas
  rw [cp]
  dsimp only
  rw [hname, if_neg Bool.false_ne_true, hdir]
  dsimp only
  rw [hlink]
  dsimp only
  rw [haddL]

/-- Witness for C1: copying a file CID as "a" into a directory that already
has a link "a", with default options, fails with `AlreadyExistsError` and
leaves the store untouched. -/
theorem claim1_witness :
    cp ⟨1, 5⟩ ⟨1, 2⟩ "a"
        [(⟨1, 2⟩, .dirNode [⟨"a", 4, ⟨1, 5⟩⟩]), (⟨1, 5⟩, .fileNode 3)] {} =
      (.error .AlreadyExistsError,
        [(⟨1, 2⟩, .dirNode [⟨"a", 4, ⟨1, 5⟩⟩]), (⟨1, 5⟩, .fileNode 3)]) :=
  claim1_cp_existing_name_fails ⟨1, 5⟩ ⟨1, 2⟩ "a"
    [(⟨1, 2⟩, .dirNode [⟨"a", 4, ⟨1, 5⟩⟩]), (⟨1, 5⟩, .fileNode 3)] {}
    ⟨⟨1, 2⟩, .dirNode [⟨"a", 4, ⟨1, 5⟩⟩]⟩ ⟨"a", 4, ⟨1, 5⟩⟩
    (by decide) rfl rfl rfl (by decide)

/-- C3: for every flat directory, `addLink` converts to sharded form
exactly when the candidate serialized size (the size after inserting the
link) strictly exceeds `shardSplitThresholdBytes`: at exactly the threshold
the directory stays flat, one byte over forces conversion. -/
theorem claim3_threshold_boundary (parent : Directory) (child : PBLink)
    (bs : Blockstore) (opts : AddLinkOpts) (links : List PBLink)
    (r : DirResult)
    (hnode : parent.node = .dirNode links)
    (h : (addLink parent child bs opts).1 = .ok r) :
    isShard r.node = true ↔
      serializedDirSize (links.filter (fun l => l.Name != child.Name) ++ [child]) >
        opts.shardSplitThresholdBytes := by
  rw [addLink, hnode] at h
  dsimp only at h
  split_ifs at h with hovr hsz
  · simp only [putContent] at h
    cases h
    simp [isShard, hsz]
  · simp only [putContent] at h
    cases h
    simp [isShard, hsz]

/-- Witness for C3: inserting the link "a" into an empty flat directory
with the threshold set exactly to the candidate size (47 bytes) leaves the
directory flat. -/
theorem claim3_witness :
    isShard (DirResult.node ⟨⟨1, hashContent (.dirNode [⟨"a", 1, ⟨1, 5⟩⟩])⟩,
        .dirNode [⟨"a", 1, ⟨1, 5⟩⟩]⟩) = true ↔
      serializedDirSize
          (([] : List PBLink).filter (fun l => l.Name != ("a" : String)) ++
            [⟨"a", 1, ⟨1, 5⟩⟩]) > 47 :=
  claim3_threshold_boundary ⟨⟨1, 2⟩, .dirNode []⟩ ⟨"a", 1, ⟨1, 5⟩⟩ []
    ⟨true, 1, 47⟩ [] _ rfl rfl

/-- C6: applying `addLink` with `allowOverwriting := true` twice with the
same link yields the same result (same node, hence the same CID) as
applying it once: the second application returns exactly the first result,
whatever blockstore it runs against. -/
theorem claim6_addLink_overwrite_idempotent (parent : Directory)
    (child : PBLink) (bs bs2 : Blockstore) (opts : AddLinkOpts)
    (r : DirResult)
    (hov : opts.allowOverwriting = true)
    (h1 : (addLink parent child bs opts).1 = .ok r) :
    (addLink ⟨r.cid, r.node⟩ child bs2 opts).1 = .ok r := by
  cases hn : parent.node with
  | dirNode links =>
    rw [addLink, hn] at h1
    dsimp only at h1
    rw [hov] at h1
    simp only [Bool.not_true, Bool.and_false, Bool.false_eq_true,
      if_false] at h1
    by_cases hsz : serializedDirSize
        (links.filter (fun l => l.Name != child.Name) ++ [child]) >
        opts.shardSplitThresholdBytes
    · rw [if_pos hsz] at h1
      simp only [putContent] at h1
      cases h1
      rw [addLink]
      dsimp only
      rw [hov]
      simp only [Bool.not_true, Bool.and_false, Bool.false_eq_true, if_false]
      rw [convertToShard_append_single, insertWith_idem]
      rfl
    · rw [if_neg hsz] at h1
      simp only [putContent] at h1
      cases h1
      rw [addLink]
      dsimp only
      rw [hov]
      simp only [Bool.not_true, Bool.and_false, Bool.false_eq_true, if_false]
      rw [filter_ne_append_self]
      rw [if_neg hsz]
      rfl
  | shardNode n =>
    rw [addLink, hn] at h1
    dsimp only at h1
    rw [hov] at h1
    simp only [Bool.not_true, Bool.and_false, Bool.false_eq_true,
      if_false] at h1
    simp only [putContent] at h1
    cases h1
    rw [addLink]
    dsimp only
    rw [hov]
    simp only [Bool.not_true, Bool.and_false, Bool.false_eq_true, if_false]
    rw [insertWith_idem]
    rfl
  | fileNode k =>
    rw [addLink, hn] at h1
    exact absurd h1 (by simp)
  | rawNode k =>
    rw [addLink, hn] at h1
    exact absurd h1 (by simp)

/-- Witness for C6: overwriting the link "a" in a concrete one-link flat
directory twice returns exactly the result of doing it once. -/
theorem claim6_witness :
    (addLink ⟨⟨1, hashContent (.dirNode [⟨"a", 9, ⟨1, 6⟩⟩])⟩,
        .dirNode [⟨"a", 9, ⟨1, 6⟩⟩]⟩ ⟨"a", 9, ⟨1, 6⟩⟩ []
        ⟨true, 1, 1000⟩).1 =
      .ok ⟨⟨1, hashContent (.dirNode [⟨"a", 9, ⟨1, 6⟩⟩])⟩,
        .dirNode [⟨"a", 9, ⟨1, 6⟩⟩]⟩ :=
  claim6_addLink_overwrite_idempotent ⟨⟨1, 2⟩, .dirNode [⟨"a", 1, ⟨1, 5⟩⟩]⟩
    ⟨"a", 9, ⟨1, 6⟩⟩ [] [] ⟨true, 1, 1000⟩
    ⟨⟨1, hashContent (.dirNode [⟨"a", 9, ⟨1, 6⟩⟩])⟩,
      .dirNode [⟨"a", 9, ⟨1, 6⟩⟩]⟩ rfl rfl

/-- C8: for every root and every depth-three path to a leaf directory, a
single mutation of that leaf changes the CID (modelled as the node value,
content addressing being collision-free) of the leaf and of each of its
three ancestors on the path, while every sibling link of each rewritten
ancestor still points at the identical (hence identically-addressed)
subtree. -/
theorem claim8_ancestor_propagation (ls0 ls1 ls2 : TLinks)
    (s0 s1 s2 : String) (D1 D2 D3 D3' : TNode) (f : TNode → Option TNode)
    (h0 : getChild s0 ls0 = some D1)
    (hD1 : D1 = .dir ls1)
    (h1 : getChild s1 ls1 = some D2)
    (hD2 : D2 = .dir ls2)
    (h2 : getChild s2 ls2 = some D3)
    (hf : f D3 = some D3')
    (hne : D3' ≠ D3) :
    updatePath f [s0, s1, s2] (.dir ls0) =
      some (.dir (setChild s0
        (.dir (setChild s1 (.dir (setChild s2 D3' ls2)) ls1)) ls0)) ∧
    TNode.dir (setChild s2 D3' ls2) ≠ D2 ∧
    TNode.dir (setChild s1 (.dir (setChild s2 D3' ls2)) ls1) ≠ D1 ∧
    TNode.dir (setChild s0
        (.dir (setChild s1 (.dir (setChild s2 D3' ls2)) ls1)) ls0) ≠
      .dir ls0 ∧
    (∀ m, m ≠ s2 → getChild m (setChild s2 D3' ls2) = getChild m ls2) ∧
    (∀ m, m ≠ s1 →
      getChild m (setChild s1 (.dir (setChild s2 D3' ls2)) ls1) =
        getChild m ls1) ∧
    (∀ m, m ≠ s0 →
      getChild m (setChild s0
          (.dir (setChild s1 (.dir (setChild s2 D3' ls2)) ls1)) ls0) =
        getChild m ls0) := by
  subst hD1
  subst hD2
  have hc2 : TNode.dir (setChild s2 D3' ls2) ≠ TNode.dir ls2 :=
    dir_setChild_ne h2 hne
  have hc1 : TNode.dir (setChild s1 (.dir (setChild s2 D3' ls2)) ls1) ≠
      TNode.dir ls1 :=
    dir_setChild_ne h1 hc2
  have hc0 : TNode.dir (setChild s0
      (.dir (setChild s1 (.dir (setChild s2 D3' ls2)) ls1)) ls0) ≠
      TNode.dir ls0 :=
    dir_setChild_ne h0 hc1
  refine ⟨?_, hc2, hc1, hc0, ?_, ?_, ?_⟩
  · simp [updatePath, h0, h1, h2, hf]
  · intro m hm
    exact getChild_setChild_ne hm _ _
  · intro m hm
    exact getChild_setChild_ne hm _ _
  · intro m hm
    exact getChild_setChild_ne hm _ _

/-- Witness for C8: a concrete three-deep tree whose leaf directory gains a
link; the rewritten root really is the stated one and all four nodes on the
path change. -/
theorem claim8_witness :
    updatePath (fun _ => some (.dir (.cons "x" (.file 1) .nil)))
        ["a", "b", "c"]
        (.dir (.cons "a"
          (.dir (.cons "b"
            (.dir (.cons "c" (.dir .nil)
              (.cons "sib" (.file 7) .nil))) .nil)) .nil)) =
      some (.dir (setChild "a"
        (.dir (setChild "b"
          (.dir (setChild "c" (.dir (.cons "x" (.file 1) .nil))
            (.cons "c" (.dir .nil) (.cons "sib" (.file 7) .nil))))
          .nil))
        (.cons "a"
          (.dir (.cons "b"
            (.dir (.cons "c" (.dir .nil)
              (.cons "sib" (.file 7) .nil))) .nil)) .nil))) ∧
    TNode.dir (setChild "c" (.dir (.cons "x" (.file 1) .nil))
        (.cons "c" (.dir .nil) (.cons "sib" (.file 7) .nil))) ≠
      .dir (.cons "c" (.dir .nil) (.cons "sib" (.file 7) .nil)) ∧
    TNode.dir (setChild "b"
        (.dir (setChild "c" (.dir (.cons "x" (.file 1) .nil))
          (.cons "c" (.dir .nil) (.cons "sib" (.file 7) .nil)))) .nil) ≠
      .dir (.cons "b"
        (.dir (.cons "c" (.dir .nil) (.cons "sib" (.file 7) .nil))) .nil) ∧
    TNode.dir (setChild "a"
        (.dir (setChild "b"
          (.dir (setChild "c" (.dir (.cons "x" (.file 1) .nil))
            (.cons "c" (.dir .nil) (.cons "sib" (.file 7) .nil))))
          .nil))
        (.cons "a"
          (.dir (.cons "b"
            (.dir (.cons "c" (.dir .nil)
              (.cons "sib" (.file 7) .nil))) .nil)) .nil)) ≠
      .dir (.cons "a"
        (.dir (.cons "b"
          (.dir (.cons "c" (.dir .nil)
            (.cons "sib" (.file 7) .nil))) .nil)) .nil) ∧
    (∀ m, m ≠ "c" →
      getChild m (setChild "c" (.dir (.cons "x" (.file 1) .nil))
          (.cons "c" (.dir .nil) (.cons "sib" (.file 7) .nil))) =
        getChild m (.cons "c" (.dir .nil) (.cons "sib" (.file 7) .nil))) ∧
    (∀ m, m ≠ "b" →
      getChild m (setChild "b"
          (.dir (setChild "c" (.dir (.cons "x" (.file 1) .nil))
            (.cons "c" (.dir .nil) (.cons "sib" (.file 7) .nil))))
          .nil) =
        getChild m
          (.cons "b"
            (.dir (.cons "c" (.dir .nil)
              (.cons "sib" (.file 7) .nil))) .nil)) ∧
    (∀ m, m ≠ "a" →
      getChild m (setChild "a"
          (.dir (setChild "b"
            (.dir (setChild "c" (.dir (.cons "x" (.file 1) .nil))
              (.cons "c" (.dir .nil) (.cons "sib" (.file 7) .nil))))
            .nil))
          (.cons "a"
            (.dir (.cons "b"
              (.dir (.cons "c" (.dir .nil)
                (.cons "sib" (.file 7) .nil))) .nil)) .nil)) =
        getChild m
          (.cons "a"
            (.dir (.cons "b"
              (.dir (.cons "c" (.dir .nil)
                (.cons "sib" (.file 7) .nil))) .nil)) .nil)) :=
  claim8_ancestor_propagation
    (.cons "a"
      (.dir (.cons "b"
        (.dir (.cons "c" (.dir .nil)
          (.cons "sib" (.file 7) .nil))) .nil)) .nil)
    (.cons "b"
      (.dir (.cons "c" (.dir .nil) (.cons "sib" (.file 7) .nil))) .nil)
    (.cons "c" (.dir .nil) (.cons "sib" (.file 7) .nil))
    "a" "b" "c"
    (.dir (.cons "b"
      (.dir (.cons "c" (.dir .nil) (.cons "sib" (.file 7) .nil))) .nil))
    (.dir (.cons "c" (.dir .nil) (.cons "sib" (.file 7) .nil)))
    (.dir .nil)
    (.dir (.cons "x" (.file 1) .nil))
    (fun _ => some (.dir (.cons "x" (.file 1) .nil)))
    rfl rfl rfl rfl rfl rfl (by decide)
